import Mathlib

/-!
# Verification of the json-formatter media pipeline

Shallow embedding of the two pipeline scripts (`convertMp4ToGif.js` and
`uploadVideosToR2.js`): the JSON data model, the entry collector, the
object-key derivation, the retrying fetcher, the cached download routines
and the two driver loops, together with proofs of the specified properties.

JavaScript runtime values are modelled as follows: JSON-decoded values are a
`Json` inductive; JS strings are Lean `String` manipulated through their
character lists; object property order is the association-list order;
machine-level details (streams, sockets, the transcoder) are represented by
explicit oracles passed as function arguments.
-/

namespace JsonFormatter

/-- A JSON-decoded JavaScript value.  Objects keep their properties in
iteration order as an association list. -/
inductive Json where
  | null
  | bool (b : Bool)
  | num (n : Int)
  | str (s : String)
  | arr (xs : List Json)
  | obj (fields : List (String × Json))
deriving Repr

/-- JavaScript falsiness of a JSON-decoded value (the guard clause
writes this as the negation test on the node). -/
def isFalsy : Json → Bool
  | Json.null => true
  | Json.bool b => !b
  | Json.num n => n == 0
  | Json.str s => s == ""
  | Json.arr _ => false
  | Json.obj _ => false

/-- Property access for the video field: result of reading the value at key
"video" on an object, as an association-list lookup. -/
def videoField (fields : List (String × Json)) : Option Json :=
  fields.lookup "video"

/-- The JS test that the video property of an object is string-typed. -/
def hasStringVideo (fields : List (String × Json)) : Bool :=
  match videoField fields with
  | some (Json.str _) => true
  | _ => false

mutual
/-- `collectVideoEntries` from both scripts (identical in the two files):
guard on falsiness, recurse through arrays element by element, and for plain
objects push the object itself when its video property is a string before
recursing into every property value.  The accumulator models the mutated
entries array. -/
def collectVideoEntries (node : Json) (entries : List Json) : List Json :=
  if isFalsy node then entries
  else
    match node with
    | Json.arr xs => collectList xs entries
    | Json.obj fields =>
        collectFields fields
          (if hasStringVideo fields then entries ++ [Json.obj fields] else entries)
    | _ => entries

/-- The forEach over an array's elements inside `collectVideoEntries`. -/
def collectList (xs : List Json) (entries : List Json) : List Json :=
  match xs with
  | [] => entries
  | x :: rest => collectList rest (collectVideoEntries x entries)

/-- The forEach over an object's property values inside
`collectVideoEntries`. -/
def collectFields (fs : List (String × Json)) (entries : List Json) : List Json :=
  match fs with
  | [] => entries
  | (_, v) :: rest => collectFields rest (collectVideoEntries v entries)
end

mutual
/-- Specification-side collector, written from the spec text: depth-first
pre-order, arrays element by element, an object listed before its property
values are recursed into, and only objects whose video field is a string. -/
def dfsVideoEntries : Json → List Json
  | Json.arr xs => dfsArr xs
  | Json.obj fields =>
      (if hasStringVideo fields then [Json.obj fields] else []) ++ dfsFields fields
  | _ => []

/-- Spec-side traversal of an array's elements in order. -/
def dfsArr : List Json → List Json
  | [] => []
  | x :: rest => dfsVideoEntries x ++ dfsArr rest

/-- Spec-side traversal of an object's property values in order. -/
def dfsFields : List (String × Json) → List Json
  | [] => []
  | (_, v) :: rest => dfsVideoEntries v ++ dfsFields rest
end

theorem collectList_eq_append (xs : List Json)
    (ih : ∀ x ∈ xs, ∀ acc, collectVideoEntries x acc = acc ++ dfsVideoEntries x) :
    ∀ acc, collectList xs acc = acc ++ dfsArr xs := by
  induction xs with
  | nil => intro acc; simp [collectList, dfsArr]
  | cons x rest ihrest =>
    intro acc
    rw [collectList, dfsArr, ih x (by simp),
      ihrest (fun y hy => ih y (List.mem_cons_of_mem _ hy)), List.append_assoc]

theorem collectFields_eq_append (fs : List (String × Json))
    (ih : ∀ kv ∈ fs, ∀ acc, collectVideoEntries kv.2 acc = acc ++ dfsVideoEntries kv.2) :
    ∀ acc, collectFields fs acc = acc ++ dfsFields fs := by
  induction fs with
  | nil => intro acc; simp [collectFields, dfsFields]
  | cons kv rest ihrest =>
    intro acc
    obtain ⟨k, v⟩ := kv
    rw [collectFields, dfsFields, ih (k, v) (by simp),
      ihrest (fun y hy => ih y (List.mem_cons_of_mem _ hy)), List.append_assoc]

/-- Subterm induction principle for the nested `Json` inductive: to prove a
property of every value it suffices to prove it for each constructor given
the property for all array elements and all object field values. -/
theorem Json.subInduction (P : Json → Prop)
    (hnull : P Json.null) (hbool : ∀ b, P (Json.bool b))
    (hnum : ∀ n, P (Json.num n)) (hstr : ∀ s, P (Json.str s))
    (harr : ∀ xs, (∀ x ∈ xs, P x) → P (Json.arr xs))
    (hobj : ∀ fs, (∀ kv ∈ fs, P (Prod.snd kv)) → P (Json.obj fs)) :
    ∀ j, P j
  | Json.null => hnull
  | Json.bool b => hbool b
  | Json.num n => hnum n
  | Json.str s => hstr s
  | Json.arr xs =>
      harr xs (fun x hx =>
        Json.subInduction P hnull hbool hnum hstr harr hobj x)
  | Json.obj fs =>
      hobj fs (fun kv hkv =>
        Json.subInduction P hnull hbool hnum hstr harr hobj kv.2)
termination_by j => sizeOf j
decreasing_by
  · have h1 := List.sizeOf_lt_of_mem hx
    simp only [Json.arr.sizeOf_spec]
    omega
  · have h1 := List.sizeOf_lt_of_mem hkv
    have h2 : sizeOf kv.2 < sizeOf kv := by
      obtain ⟨k, v⟩ := kv
      simp only [Prod.mk.sizeOf_spec]
      omega
    simp only [Json.obj.sizeOf_spec]
    omega

theorem collect_eq_acc_dfs : ∀ (j : Json) (acc : List Json),
    collectVideoEntries j acc = acc ++ dfsVideoEntries j := by
  intro j
  induction j using Json.subInduction with
  | hnull => intro acc; simp [collectVideoEntries, dfsVideoEntries, isFalsy]
  | hbool b => intro acc; cases b <;> simp [collectVideoEntries, dfsVideoEntries, isFalsy]
  | hnum n =>
    intro acc
    by_cases h : n = 0 <;> simp [collectVideoEntries, dfsVideoEntries, isFalsy, h]
  | hstr s =>
    intro acc
    by_cases h : s = "" <;> simp [collectVideoEntries, dfsVideoEntries, isFalsy, h]
  | harr xs ih =>
    intro acc
    rw [collectVideoEntries]
    simp only [isFalsy, Bool.false_eq_true, if_false]
    rw [dfsVideoEntries, collectList_eq_append xs ih]
  | hobj fs ih =>
    intro acc
    rw [collectVideoEntries]
    simp only [isFalsy, Bool.false_eq_true, if_false]
    rw [dfsVideoEntries,
      collectFields_eq_append fs (fun kv hkv => ih kv hkv)]
    by_cases h : hasStringVideo fs = true <;> simp [h, List.append_assoc]

/-- C1: for every JSON value, the entry collector returns exactly the object
nodes whose video property is string-typed, in depth-first pre-order (array
elements in order, an object before its property values, descendants of a
recorded entry still scanned): it agrees with the specification-side
traversal `dfsVideoEntries`. -/
theorem collect_entries_spec (j : Json) :
    collectVideoEntries j [] = dfsVideoEntries j := by
  simpa using collect_eq_acc_dfs j []

/-! ## String utilities shared by the upload script -/

/-- Whitespace recognised by the JS string trim on the ASCII range. -/
def isJsSpace (c : Char) : Bool :=
  [' ', '\t', '\n', '\r', '\x0b', '\x0c'].contains c

/-- The JS string trim, on character lists. -/
def jsTrimChars (cs : List Char) : List Char :=
  ((cs.dropWhile isJsSpace).reverse.dropWhile isJsSpace).reverse

/-- The JS string trim. -/
def jsTrim (s : String) : String :=
  String.mk (jsTrimChars s.data)

/-- The leading-slash strip, the first replace in `sanitizeKeySegment`. -/
def dropLeadSlashes (cs : List Char) : List Char :=
  cs.dropWhile (fun c => c == '/')

/-- The trailing-slash strip, the last replace in `sanitizeKeySegment`. -/
def dropTrailSlashes : List Char → List Char
  | [] => []
  | c :: rest =>
    match dropTrailSlashes rest with
    | [] => if c == '/' then [] else [c]
    | d :: ds => c :: d :: ds

/-- The run-of-slashes collapse, the middle replace in
`sanitizeKeySegment` (a leading slash of a run is dropped until the run has
length one, which computes the same list as replacing each run by one
slash). -/
def collapseSlashes : List Char → List Char
  | [] => []
  | [c] => [c]
  | a :: b :: rest =>
    if a == '/' && b == '/' then collapseSlashes (b :: rest)
    else a :: collapseSlashes (b :: rest)

/-- `sanitizeKeySegment` on character lists: strip leading slashes, collapse
repeated slashes, strip trailing slashes, in that order. -/
def sanitizeChars (cs : List Char) : List Char :=
  dropTrailSlashes (collapseSlashes (dropLeadSlashes cs))

/-- `sanitizeKeySegment` from the upload script. -/
def sanitizeKeySegment (s : String) : String :=
  String.mk (sanitizeChars s.data)

/-- The normalized form of the key prefix computed at the top of
`deriveObjectKey`: trim, then strip leading and trailing slashes (internal
runs of slashes are left as they are). -/
def normalizedPfxChars (p : String) : List Char :=
  dropTrailSlashes (dropLeadSlashes (jsTrimChars p.data))

/-- Character-list test that a pattern list starts the given list. -/
def beginsWith : List Char → List Char → Bool
  | [], _ => true
  | _ :: _, [] => false
  | p :: ps, c :: cs => p == c && beginsWith ps cs

/-- `isRemotePath` from the upload script: a case-insensitive http or https
scheme test at the start of the string. -/
def isRemotePath (s : String) : Bool :=
  beginsWith "http://".data (s.data.map Char.toLower) ||
    beginsWith "https://".data (s.data.map Char.toLower)

/-- Model of the platform URL parser: everything after the first scheme
separator of the string. -/
def afterScheme : List Char → List Char
  | ':' :: '/' :: '/' :: rest => rest
  | _ :: rest => afterScheme rest
  | [] => []

/-- Model of the platform URL parser: the host component of an absolute
URL. -/
def urlHostChars (cs : List Char) : List Char :=
  (afterScheme cs).takeWhile (fun c => !(c == '/' || c == '?' || c == '#'))

/-- Model of the platform URL parser: the pathname component of an absolute
URL (the part from the first slash after the authority up to a query or
fragment, or a single slash when absent). -/
def urlPathChars (cs : List Char) : List Char :=
  let rest := (afterScheme cs).dropWhile (fun c => !(c == '/'))
  let p := rest.takeWhile (fun c => !(c == '?' || c == '#'))
  if p.isEmpty then ['/'] else p

/-- Model of the platform URL parser: pathname of a URL string. -/
def urlPathname (url : String) : String :=
  String.mk (urlPathChars url.data)

/-- Hexadecimal digit value, for percent decoding (digits, then the two
letter ranges by character code). -/
def hexVal (c : Char) : Option Nat :=
  let n := c.toNat
  if 48 ≤ n ∧ n ≤ 57 then some (n - 48)
  else if 97 ≤ n ∧ n ≤ 102 then some (n - 87)
  else if 65 ≤ n ∧ n ≤ 70 then some (n - 55)
  else none

/-- Model of the platform percent decoder on the single-byte range: a
percent sign followed by two hex digits becomes the coded character, other
characters pass through (malformed escapes are kept literally). -/
def percentDecodeChars : List Char → List Char
  | [] => []
  | ['%'] => ['%']
  | ['%', c] => ['%', c]
  | '%' :: h₁ :: h₂ :: rest =>
    match hexVal h₁, hexVal h₂ with
    | some a, some b => Char.ofNat (16 * a + b) :: percentDecodeChars rest
    | _, _ => '%' :: percentDecodeChars (h₁ :: h₂ :: rest)
  | c :: rest => c :: percentDecodeChars rest

/-- Model of the platform percent decoder on strings. -/
def percentDecode (s : String) : String :=
  String.mk (percentDecodeChars s.data)

/-- The directory of the scripts (the dirname constant both scripts compute
from their own location); a fixed abstract path in the model. -/
def dirnameBase : String := "/app/json-formatter"

/-- Model of the platform relative-path computation, exact for a target at
or under the base directory (the only shape the scripts produce): the base
is stripped; other targets are returned unchanged. -/
def pathRelativeModel (base p : String) : String :=
  if p == base then ""
  else if beginsWith (base.data ++ ['/']) p.data then
    String.mk (p.data.drop (base.data.length + 1))
  else p

/-- `toPosixPath` from the upload script: splitting on the platform
separator and joining with a forward slash is the identity on the posix
deployment platform, where the separator is already the forward slash. -/
def toPosixPath (s : String) : String := s

/-- The key base computed by the branch inside `deriveObjectKey`: the
decoded URL pathname for a remote source, otherwise the posix form of the
local path relative to the script directory. -/
def rawKeyBase (source localPath : String) : String :=
  if isRemotePath source then percentDecode (urlPathname source)
  else toPosixPath (pathRelativeModel dirnameBase localPath)

/-- `deriveObjectKey` from the upload script. -/
def deriveObjectKey (source localPath pfx : String) : String :=
  let np := String.mk (normalizedPfxChars pfx)
  let keyBase := sanitizeKeySegment (rawKeyBase source localPath)
  if np ≠ "" then np ++ "/" ++ keyBase else keyBase

/-- Detects two adjacent forward slashes somewhere in the list. -/
def hasDoubleSlash : List Char → Bool
  | [] => false
  | [_] => false
  | a :: b :: rest => (a == '/' && b == '/') || hasDoubleSlash (b :: rest)

/-- The key shape demanded by the spec: no leading slash, no trailing
slash, no run of two slashes. -/
def keyOk (s : String) : Prop :=
  s.data.head? ≠ some '/' ∧ s.data.getLast? ≠ some '/' ∧
    hasDoubleSlash s.data = false

theorem hasDoubleSlash_cons_false (a : Char) (l : List Char) :
    hasDoubleSlash (a :: l) = false ↔
      ¬(a = '/' ∧ l.head? = some '/') ∧ hasDoubleSlash l = false := by
  cases l with
  | nil => simp [hasDoubleSlash]
  | cons b rest =>
    by_cases ha : a = '/' <;> by_cases hb : b = '/' <;>
      simp [hasDoubleSlash, ha, hb]

theorem head_dropLeadSlashes (cs : List Char) :
    (dropLeadSlashes cs).head? ≠ some '/' := by
  induction cs with
  | nil => simp [dropLeadSlashes]
  | cons c rest ih =>
    by_cases hc : c = '/' <;>
      simp [dropLeadSlashes, List.dropWhile_cons, hc] at ih ⊢
    exact ih

theorem head_collapseSlashes (cs : List Char) :
    (collapseSlashes cs).head? = cs.head? := by
  induction cs using collapseSlashes.induct with
  | case1 => rfl
  | case2 c => rfl
  | case3 a b rest hab ih =>
    rw [collapseSlashes, if_pos hab, ih]
    simp only [Bool.and_eq_true, beq_iff_eq] at hab
    simp [hab.1, hab.2]
  | case4 a b rest hab ih =>
    rw [collapseSlashes, if_neg hab]
    rfl

theorem hasDoubleSlash_collapseSlashes (cs : List Char) :
    hasDoubleSlash (collapseSlashes cs) = false := by
  induction cs using collapseSlashes.induct with
  | case1 => rfl
  | case2 c => rfl
  | case3 a b rest hab ih => rw [collapseSlashes, if_pos hab]; exact ih
  | case4 a b rest hab ih =>
    rw [collapseSlashes, if_neg hab, hasDoubleSlash_cons_false,
      head_collapseSlashes]
    refine ⟨fun hc => hab ?_, ih⟩
    simp only [List.head?_cons, Option.some.injEq] at hc
    simp [hc.1, hc.2]

theorem getLast_dropTrailSlashes (cs : List Char) :
    (dropTrailSlashes cs).getLast? ≠ some '/' := by
  induction cs with
  | nil => simp [dropTrailSlashes]
  | cons c rest ih =>
    rw [dropTrailSlashes]
    cases h : dropTrailSlashes rest with
    | nil =>
      by_cases hc : c = '/' <;> simp [hc]
    | cons d ds =>
      rw [h] at ih
      simpa [List.getLast?] using ih

theorem head_dropTrailSlashes (cs : List Char) (a : Char)
    (h : (dropTrailSlashes cs).head? = some a) : cs.head? = some a := by
  induction cs with
  | nil => simpa [dropTrailSlashes] using h
  | cons c rest ih =>
    rw [dropTrailSlashes] at h
    cases hrest : dropTrailSlashes rest with
    | nil =>
      rw [hrest] at h
      by_cases hc : c = '/' <;> simp_all
    | cons d ds =>
      rw [hrest] at h
      simp_all

theorem hasDoubleSlash_dropTrailSlashes (cs : List Char)
    (h : hasDoubleSlash cs = false) :
    hasDoubleSlash (dropTrailSlashes cs) = false := by
  induction cs with
  | nil => simpa [dropTrailSlashes] using h
  | cons c rest ih =>
    rw [hasDoubleSlash_cons_false] at h
    rw [dropTrailSlashes]
    cases hrest : dropTrailSlashes rest with
    | nil =>
      by_cases hc : c = '/' <;> simp [hc, hasDoubleSlash]
    | cons d ds =>
      rw [hasDoubleSlash_cons_false]
      have hd : rest.head? = some d :=
        head_dropTrailSlashes rest d (by rw [hrest]; rfl)
      refine ⟨fun hc => h.1 ⟨hc.1, ?_⟩, by rw [← hrest]; exact ih h.2⟩
      have := hc.2
      simp only [List.head?_cons, Option.some.injEq] at this
      rw [hd, this]

theorem hasDoubleSlash_append (xs ys : List Char)
    (hx : hasDoubleSlash xs = false) (hy : hasDoubleSlash ys = false)
    (hj : ¬(xs.getLast? = some '/' ∧ ys.head? = some '/')) :
    hasDoubleSlash (xs ++ ys) = false := by
  induction xs with
  | nil => simpa using hy
  | cons a rest ih =>
    rw [hasDoubleSlash_cons_false] at hx
    rw [List.cons_append, hasDoubleSlash_cons_false]
    cases rest with
    | nil =>
      refine ⟨fun hc => hj ⟨by simp [List.getLast?, hc.1], by simpa using hc.2⟩,
        by simpa using hy⟩
    | cons b rest2 =>
      have hgl : (a :: b :: rest2).getLast? = (b :: rest2).getLast? := by
        simp [List.getLast?]
      rw [hgl] at hj
      refine ⟨fun hc => hx.1 ⟨hc.1, by simpa using hc.2⟩, ih hx.2 hj⟩

theorem sanitizeChars_head (cs : List Char) :
    (sanitizeChars cs).head? ≠ some '/' := by
  intro h
  have h2 := head_dropTrailSlashes _ _ h
  rw [head_collapseSlashes] at h2
  exact head_dropLeadSlashes cs h2

theorem sanitizeChars_last (cs : List Char) :
    (sanitizeChars cs).getLast? ≠ some '/' :=
  getLast_dropTrailSlashes _

theorem sanitizeChars_noDouble (cs : List Char) :
    hasDoubleSlash (sanitizeChars cs) = false :=
  hasDoubleSlash_dropTrailSlashes _ (hasDoubleSlash_collapseSlashes _)

theorem npChars_head (p : String) :
    (normalizedPfxChars p).head? ≠ some '/' := by
  intro h
  exact head_dropLeadSlashes _ (head_dropTrailSlashes _ _ h)

theorem npChars_last (p : String) :
    (normalizedPfxChars p).getLast? ≠ some '/' :=
  getLast_dropTrailSlashes _

theorem stringMk_append (a b : List Char) :
    String.mk a ++ String.mk b = String.mk (a ++ b) := rfl

/-- C2 (amended): the key returned by `deriveObjectKey` never starts with a
slash, never ends with a slash and never contains two adjacent slashes,
provided the normalized prefix (trimmed, leading and trailing slashes
stripped) itself contains no two adjacent slashes, and the sanitized base
segment is non-empty whenever the normalized prefix is non-empty.  (The
unamended claim fails: the prefix normalization does not collapse internal
slash runs, and an empty base segment under a non-empty prefix leaves a
trailing slash — see the counterexample.) -/
theorem deriveObjectKey_keyOk (source localPath pfx : String)
    (hnp : hasDoubleSlash (normalizedPfxChars pfx) = false)
    (hkb : normalizedPfxChars pfx ≠ [] →
      sanitizeChars (rawKeyBase source localPath).data ≠ []) :
    keyOk (deriveObjectKey source localPath pfx) := by
  unfold deriveObjectKey keyOk
  by_cases hne : String.mk (normalizedPfxChars pfx) = ""
  · rw [if_neg (not_not_intro hne)]
    exact ⟨sanitizeChars_head _, sanitizeChars_last _, sanitizeChars_noDouble _⟩
  · rw [if_pos hne]
    have hnpn : normalizedPfxChars pfx ≠ [] := by
      intro hcontra
      exact hne (by rw [hcontra])
    have hkbn := hkb hnpn
    have hdata : (String.mk (normalizedPfxChars pfx) ++ "/" ++
        sanitizeKeySegment (rawKeyBase source localPath)).data =
        normalizedPfxChars pfx ++ '/' ::
          sanitizeChars (rawKeyBase source localPath).data := by
      show (normalizedPfxChars pfx ++ ['/']) ++
          sanitizeChars (rawKeyBase source localPath).data = _
      rw [List.append_assoc]
      rfl
    rw [hdata]
    refine ⟨?_, ?_, ?_⟩
    · rw [List.head?_append_of_ne_nil _ hnpn]
      exact npChars_head pfx
    · rw [List.getLast?_append_cons]
      cases hkb2 : sanitizeChars (rawKeyBase source localPath).data with
      | nil => exact absurd hkb2 hkbn
      | cons d ds =>
        rw [← List.singleton_append, List.getLast?_append_cons, ← hkb2]
        exact sanitizeChars_last _
    · refine hasDoubleSlash_append _ _ hnp ?_ ?_
      · rw [hasDoubleSlash_cons_false]
        exact ⟨fun hc => sanitizeChars_head _ hc.2, sanitizeChars_noDouble _⟩
      · intro hc
        exact npChars_last pfx hc.1

/-- C2: counterexample to the unamended claim: with prefix "a//b" (whose
internal slash run the code never collapses) and the remote source
"https://x/" (whose sanitized path is empty), the derived key is "a//b/":
it contains a double slash and ends with a slash. -/
theorem deriveObjectKey_counterexample :
    deriveObjectKey "https://x/" "/app/json-formatter/v.mp4" "a//b" = "a//b/" ∧
      hasDoubleSlash ("a//b/").data = true ∧
      ("a//b/").data.getLast? = some '/' := by
  refine ⟨by decide, by decide, by decide⟩

/-- C2: witness instantiating the amended theorem at a concrete input. -/
theorem deriveObjectKey_keyOk_witness :
    hasDoubleSlash (normalizedPfxChars "media") = false ∧
      keyOk (deriveObjectKey "https://cdn.example.com/videos/clip.mp4"
        "/tmp/clip.mp4" "media") :=
  ⟨by decide, deriveObjectKey_keyOk _ _ _ (by decide) (fun _ => by decide)⟩

/-- C3 (amended): the key derived for a remote source does not depend on
the local path: for identical remote source and identical prefix the keys
agree for any pair of local paths.  (The unamended claim fails for local
sources, where the key is derived from the local path, not the source —
see the counterexample; at the call site the local path is itself a
function of the source, so the dedup in the driver is unaffected.) -/
theorem deriveObjectKey_localPath_independent (source pfx lp₁ lp₂ : String)
    (h : isRemotePath source = true) :
    deriveObjectKey source lp₁ pfx = deriveObjectKey source lp₂ pfx := by
  unfold deriveObjectKey rawKeyBase
  rw [h]
  simp

/-- C3: counterexample to the unamended claim: for a non-remote source the
key follows the local path, so identical source and prefix with different
local paths give different keys. -/
theorem deriveObjectKey_localPath_dependent :
    deriveObjectKey "downloads_r2/clip.gif" "/app/json-formatter/x.gif" "" ≠
      deriveObjectKey "downloads_r2/clip.gif" "/app/json-formatter/y.gif" "" := by
  decide

/-- C3: witness instantiating the amended theorem at a concrete input. -/
theorem deriveObjectKey_localPath_independent_witness :
    isRemotePath "https://x/v.mp4" = true ∧
      deriveObjectKey "https://x/v.mp4" "/a/p.mp4" "m" =
        deriveObjectKey "https://x/v.mp4" "/b/q.mp4" "m" :=
  ⟨by decide, deriveObjectKey_localPath_independent _ _ _ _ (by decide)⟩

/-! ## The retrying fetcher of the upload script -/

/-- The observable part of a fetch response: success flag, body presence,
status and status text. -/
structure FetchResp where
  ok : Bool
  hasBody : Bool
  status : Nat
  statusText : String
deriving Repr, DecidableEq

/-- Outcome of one fetch call: a network-level throw or a response. -/
inductive FetchOutcome where
  | thrown (msg : String)
  | resp (r : FetchResp)
deriving Repr, DecidableEq

/-- The error message built for a non-success or bodyless response. -/
def fetchFailMsg (url : String) (r : FetchResp) : String :=
  "Failed to download " ++ url ++ ": " ++ toString r.status ++ " " ++ r.statusText

/-- The body of the try block: return the response when it is ok and has a
body, otherwise throw the failure message (a network throw propagates). -/
def evalFetch (url : String) : FetchOutcome → Except String FetchResp
  | FetchOutcome.thrown m => Except.error m
  | FetchOutcome.resp r =>
    if r.ok && r.hasBody then Except.ok r else Except.error (fetchFailMsg url r)

/-- Whether an attempt outcome counts as a failure (throw, non-success
status, or missing body). -/
def isFailureOutcome : FetchOutcome → Bool
  | FetchOutcome.thrown _ => true
  | FetchOutcome.resp r => !(r.ok && r.hasBody)

/-- The error value an attempt produces when it fails. -/
def outcomeErrMsg (url : String) : FetchOutcome → String
  | FetchOutcome.thrown m => m
  | FetchOutcome.resp r => fetchFailMsg url r

/-- What a call to `fetchWithRetry` did: its result, how many fetch
attempts it performed, and the successive wait times between attempts. -/
structure RetryTrace where
  result : Except String FetchResp
  attempts : Nat
  waits : List Nat
deriving Repr

/-- The message of the throw after the loop (reachable only when
`maxAttempts` is zero, since the loop otherwise exits by return or
rethrow). -/
def exhaustedMsg (url : String) (maxAttempts : Nat) : String :=
  "Failed to download " ++ url ++ " after " ++ toString maxAttempts ++ " attempts."

/-- The while loop of `fetchWithRetry`, recursing on the remaining number
of iterations (`maxAttempts - attempt`), which the loop condition bounds.
`fetchFn k` is the outcome of the k-th fetch call (0-indexed); at the loop
head the attempt counter equals the number of fetch calls made so far.  A
failed attempt increments the counter, rethrows the error once the counter
reaches `maxAttempts`, and otherwise records a wait of
`backoffMs * 2 ^ (attempt - 1)` (with the incremented, 1-indexed counter)
before the next iteration. -/
def fetchRetryGo (url : String) (fetchFn : Nat → FetchOutcome)
    (maxAttempts backoffMs : Nat) : Nat → Nat → List Nat → RetryTrace
  | attempt, 0, waits =>
    ⟨Except.error (exhaustedMsg url maxAttempts), attempt, waits⟩
  | attempt, remaining + 1, waits =>
    match evalFetch url (fetchFn attempt) with
    | Except.ok r => ⟨Except.ok r, attempt + 1, waits⟩
    | Except.error e =>
      if remaining = 0 then ⟨Except.error e, attempt + 1, waits⟩
      else
        fetchRetryGo url fetchFn maxAttempts backoffMs (attempt + 1) remaining
          (waits ++ [backoffMs * 2 ^ attempt])

/-- `fetchWithRetry` from the upload script (defaults: three attempts,
2000ms initial backoff). -/
def fetchWithRetry (url : String) (fetchFn : Nat → FetchOutcome)
    (maxAttempts backoffMs : Nat) : RetryTrace :=
  fetchRetryGo url fetchFn maxAttempts backoffMs 0 maxAttempts []

theorem evalFetch_error_of_failure (url : String) (o : FetchOutcome)
    (h : isFailureOutcome o = true) :
    evalFetch url o = Except.error (outcomeErrMsg url o) := by
  cases o with
  | thrown m => rfl
  | resp r =>
    unfold isFailureOutcome at h
    rw [Bool.not_eq_true'] at h
    show (if r.ok && r.hasBody then Except.ok r
      else Except.error (fetchFailMsg url r)) = Except.error (fetchFailMsg url r)
    simp [h]

theorem fetchRetryGo_fail_step (url : String) (fetchFn : Nat → FetchOutcome)
    (maxAttempts backoffMs attempt remaining : Nat) (waits : List Nat)
    (h : isFailureOutcome (fetchFn attempt) = true) (hr : remaining ≠ 0) :
    fetchRetryGo url fetchFn maxAttempts backoffMs attempt (remaining + 1) waits =
      fetchRetryGo url fetchFn maxAttempts backoffMs (attempt + 1) remaining
        (waits ++ [backoffMs * 2 ^ attempt]) := by
  rw [fetchRetryGo, evalFetch_error_of_failure url _ h]
  simp [hr]

theorem fetchRetryGo_last_fail (url : String) (fetchFn : Nat → FetchOutcome)
    (maxAttempts backoffMs attempt : Nat) (waits : List Nat)
    (h : isFailureOutcome (fetchFn attempt) = true) :
    fetchRetryGo url fetchFn maxAttempts backoffMs attempt 1 waits =
      ⟨Except.error (outcomeErrMsg url (fetchFn attempt)), attempt + 1, waits⟩ := by
  rw [fetchRetryGo, evalFetch_error_of_failure url _ h]
  simp

theorem fetchRetryGo_success (url : String) (fetchFn : Nat → FetchOutcome)
    (maxAttempts backoffMs attempt remaining : Nat) (waits : List Nat)
    (r : FetchResp) (h : evalFetch url (fetchFn attempt) = Except.ok r) :
    fetchRetryGo url fetchFn maxAttempts backoffMs attempt (remaining + 1) waits =
      ⟨Except.ok r, attempt + 1, waits⟩ := by
  rw [fetchRetryGo, h]

/-- C4: with three allowed attempts, when the first two fetch attempts fail
(throw, non-success status, or missing body) and the third returns an ok
response with a body, the call returns that third response, performed
exactly 3 attempts, and waited backoffMs then 2*backoffMs between the
attempts. -/
theorem fetchWithRetry_two_failures_then_success (url : String)
    (fetchFn : Nat → FetchOutcome) (backoffMs : Nat) (r : FetchResp)
    (h0 : isFailureOutcome (fetchFn 0) = true)
    (h1 : isFailureOutcome (fetchFn 1) = true)
    (h2 : fetchFn 2 = FetchOutcome.resp r)
    (hok : r.ok = true) (hbody : r.hasBody = true) :
    fetchWithRetry url fetchFn 3 backoffMs =
      ⟨Except.ok r, 3, [backoffMs, 2 * backoffMs]⟩ := by
  unfold fetchWithRetry
  rw [show (3 : Nat) = 1 + 1 + 1 from rfl,
    fetchRetryGo_fail_step url fetchFn 3 backoffMs 0 (1 + 1) [] h0 (by omega),
    fetchRetryGo_fail_step url fetchFn 3 backoffMs 1 1 _ h1 (by omega),
    fetchRetryGo_success url fetchFn 3 backoffMs 2 0 _ r
      (by rw [h2]
          show (if r.ok && r.hasBody then Except.ok r
            else Except.error (fetchFailMsg url r)) = Except.ok r
          simp [hok, hbody])]
  simp [Nat.mul_comm]

theorem fetchRetryGo_all_fail (url : String) (fetchFn : Nat → FetchOutcome)
    (maxAttempts backoffMs : Nat) : ∀ (n attempt : Nat) (waits : List Nat),
    attempt + (n + 1) = maxAttempts →
    (∀ k, attempt ≤ k → k < maxAttempts → isFailureOutcome (fetchFn k) = true) →
    (fetchRetryGo url fetchFn maxAttempts backoffMs attempt (n + 1) waits).result =
      Except.error (outcomeErrMsg url (fetchFn (maxAttempts - 1))) ∧
    (fetchRetryGo url fetchFn maxAttempts backoffMs attempt (n + 1) waits).attempts =
      maxAttempts := by
  intro n
  induction n with
  | zero =>
    intro attempt waits hsum hfail
    rw [fetchRetryGo_last_fail url fetchFn maxAttempts backoffMs attempt waits
      (hfail attempt (le_refl _) (by omega))]
    constructor
    · have : maxAttempts - 1 = attempt := by omega
      rw [this]
    · simpa using by omega
  | succ m ih =>
    intro attempt waits hsum hfail
    rw [fetchRetryGo_fail_step url fetchFn maxAttempts backoffMs attempt (m + 1)
      waits (hfail attempt (le_refl _) (by omega)) (by omega)]
    exact ih (attempt + 1) _ (by omega) (fun k hk1 hk2 => hfail k (by omega) hk2)

/-- C5 (amended): when all `maxAttempts` fetch attempts fail, the call
fails by rethrowing the error of the last attempt after performing exactly
`maxAttempts` attempts.  (The unamended claim fails: the loop rethrows the
underlying error rather than building a message naming the URL and the
attempt count — the "after N attempts" throw after the loop is unreachable
for positive `maxAttempts` — see the counterexample.) -/
theorem fetchWithRetry_all_fail (url : String) (fetchFn : Nat → FetchOutcome)
    (maxAttempts backoffMs : Nat) (hma : 1 ≤ maxAttempts)
    (hfail : ∀ k, k < maxAttempts → isFailureOutcome (fetchFn k) = true) :
    (fetchWithRetry url fetchFn maxAttempts backoffMs).result =
      Except.error (outcomeErrMsg url (fetchFn (maxAttempts - 1))) ∧
    (fetchWithRetry url fetchFn maxAttempts backoffMs).attempts = maxAttempts := by
  unfold fetchWithRetry
  obtain ⟨n, hn⟩ : ∃ n, maxAttempts = n + 1 := ⟨maxAttempts - 1, by omega⟩
  rw [hn]
  exact fetchRetryGo_all_fail url fetchFn (n + 1) backoffMs n 0 [] (by omega)
    (fun k _ hk2 => hfail k (hn ▸ hk2))

/-- Substring occurrence test on character lists. -/
def charsOccur (needle : List Char) : List Char → Bool
  | [] => needle.isEmpty
  | c :: rest => beginsWith needle (c :: rest) || charsOccur needle rest

/-- Substring occurrence test on strings. -/
def strOccursIn (needle hay : String) : Bool :=
  charsOccur needle.data hay.data

/-- C5: counterexample to the unamended claim: when every attempt throws
the bare network error "boom", the call fails with "boom", a message that
names neither the URL nor the attempt count. -/
theorem fetchWithRetry_error_counterexample :
    (fetchWithRetry "https://x/v.mp4" (fun _ => FetchOutcome.thrown "boom")
      3 5).result = Except.error "boom" ∧
    strOccursIn "https://x/v.mp4" "boom" = false ∧
    strOccursIn "3" "boom" = false := by
  refine ⟨rfl, by decide, by decide⟩

/-- C4: witness instantiating the theorem at a concrete input. -/
theorem fetchWithRetry_two_failures_then_success_witness :
    fetchWithRetry "u" (fun n => if n = 2
        then FetchOutcome.resp ⟨true, true, 200, "OK"⟩
        else FetchOutcome.thrown "net") 3 7 =
      ⟨Except.ok ⟨true, true, 200, "OK"⟩, 3, [7, 14]⟩ :=
  fetchWithRetry_two_failures_then_success "u" _ 7 ⟨true, true, 200, "OK"⟩
    (by decide) (by decide) (by decide) (by decide) (by decide)

/-- C5: witness instantiating the amended theorem at a concrete input. -/
theorem fetchWithRetry_all_fail_witness :
    (fetchWithRetry "u" (fun _ => FetchOutcome.thrown "x") 3 1).result =
      Except.error "x" ∧
    (fetchWithRetry "u" (fun _ => FetchOutcome.thrown "x") 3 1).attempts = 3 :=
  fetchWithRetry_all_fail "u" (fun _ => FetchOutcome.thrown "x") 3 1
    (by decide) (fun k _ => rfl)

/-! ## The cached download routines -/

/-- Filesystem and network state threaded through the download routines:
the set of paths at which a file exists, and a counter of fetch calls
performed (each fetch attempt counts one network call). -/
structure DlState where
  files : List String
  netCalls : Nat
deriving Repr, DecidableEq

/-- Model of the platform path join for a base directory and a relative
part without dot segments. -/
def joinPathModel (base p : String) : String :=
  if p == "" then base else base ++ "/" ++ p

/-- `downloadFile` from the convert script: return the destination at once
when a file already exists there (no fetch); otherwise perform one fetch,
failing on a non-success status or missing body, and on success stream the
body to the destination.  `fetchOut` is the outcome the network would give
this call. -/
def downloadFile (fetchOut : FetchOutcome) (url dest : String) (st : DlState) :
    Except String String × DlState :=
  if dest ∈ st.files then (Except.ok dest, st)
  else
    match evalFetch url fetchOut with
    | Except.ok _ => (Except.ok dest, ⟨dest :: st.files, st.netCalls + 1⟩)
    | Except.error e => (Except.error e, ⟨st.files, st.netCalls + 1⟩)

/-- The destination path `downloadRemoteFile` computes: the decoded URL
pathname with leading slashes stripped, under the downloads directory of
the upload script. -/
def remoteDest (url : String) : String :=
  joinPathModel (dirnameBase ++ "/downloads_r2")
    (String.mk (dropLeadSlashes (percentDecodeChars (urlPathChars url.data))))

/-- `downloadRemoteFile` from the upload script: return the computed
destination at once when a file already exists there (cache hit, no fetch
and no delay); otherwise fetch with retry (counting every attempt as a
network call) and stream the body to the destination. -/
def downloadRemoteFile (fetchFn : Nat → FetchOutcome) (url : String)
    (st : DlState) : Except String String × DlState :=
  if remoteDest url ∈ st.files then (Except.ok (remoteDest url), st)
  else
    match (fetchWithRetry url fetchFn 3 2000).result with
    | Except.ok _ =>
      (Except.ok (remoteDest url), ⟨remoteDest url :: st.files,
        st.netCalls + (fetchWithRetry url fetchFn 3 2000).attempts⟩)
    | Except.error e =>
      (Except.error e, ⟨st.files,
        st.netCalls + (fetchWithRetry url fetchFn 3 2000).attempts⟩)

/-- C6: cache idempotence of both fetch-or-download routines: when a file
already exists at the destination the routine returns the destination with
the state unchanged (in particular no network call); consequently a second
call with the same destination after a successful first call changes
nothing and performs no network I/O. -/
theorem download_cache_idempotent :
    (∀ fo url dest st, dest ∈ st.files →
      downloadFile fo url dest st = (Except.ok dest, st)) ∧
    (∀ fo₁ fo₂ url dest st d st₁,
      downloadFile fo₁ url dest st = (Except.ok d, st₁) →
      downloadFile fo₂ url dest st₁ = (Except.ok d, st₁)) ∧
    (∀ fetchFn url st, remoteDest url ∈ st.files →
      downloadRemoteFile fetchFn url st = (Except.ok (remoteDest url), st)) ∧
    (∀ fetchFn₁ fetchFn₂ url st d st₁,
      downloadRemoteFile fetchFn₁ url st = (Except.ok d, st₁) →
      downloadRemoteFile fetchFn₂ url st₁ = (Except.ok d, st₁)) := by
  refine ⟨?_, ?_, ?_, ?_⟩
  · intro fo url dest st hmem
    unfold downloadFile
    rw [if_pos hmem]
  · intro fo₁ fo₂ url dest st d st₁ h
    unfold downloadFile at h ⊢
    by_cases hmem : dest ∈ st.files
    · rw [if_pos hmem] at h
      obtain ⟨hd, hst⟩ := Prod.mk.injEq .. ▸ h
      obtain rfl : dest = d := by simpa using hd
      subst hst
      rw [if_pos hmem]
    · rw [if_neg hmem] at h
      cases hf : evalFetch url fo₁ with
      | ok r =>
        rw [hf] at h
        obtain ⟨hd, hst⟩ := Prod.mk.injEq .. ▸ h
        obtain rfl : dest = d := by simpa using hd
        rw [if_pos (by rw [← hst]; exact List.mem_cons_self _ _)]
      | error e =>
        rw [hf] at h
        simp at h
  · intro fetchFn url st hmem
    unfold downloadRemoteFile
    rw [if_pos hmem]
  · intro fetchFn₁ fetchFn₂ url st d st₁ h
    unfold downloadRemoteFile at h ⊢
    by_cases hmem : remoteDest url ∈ st.files
    · rw [if_pos hmem] at h
      obtain ⟨hd, hst⟩ := Prod.mk.injEq .. ▸ h
      obtain rfl : remoteDest url = d := by simpa using hd
      subst hst
      rw [if_pos hmem]
    · rw [if_neg hmem] at h
      cases hf : (fetchWithRetry url fetchFn₁ 3 2000).result with
      | ok r =>
        rw [hf] at h
        obtain ⟨hd, hst⟩ := Prod.mk.injEq .. ▸ h
        obtain rfl : remoteDest url = d := by simpa using hd
        rw [if_pos (by rw [← hst]; exact List.mem_cons_self _ _)]
      | error e =>
        rw [hf] at h
        simp at h

/-- C6: witness instantiating both cache-hit parts and a second-call part
at concrete inputs. -/
theorem download_cache_idempotent_witness :
    ("/app/json-formatter/downloads/v.mp4" ∈
        (⟨["/app/json-formatter/downloads/v.mp4"], 0⟩ : DlState).files) ∧
    downloadFile (FetchOutcome.thrown "net") "https://x/v.mp4"
        "/app/json-formatter/downloads/v.mp4"
        ⟨["/app/json-formatter/downloads/v.mp4"], 0⟩ =
      (Except.ok "/app/json-formatter/downloads/v.mp4",
        ⟨["/app/json-formatter/downloads/v.mp4"], 0⟩) ∧
    downloadFile (FetchOutcome.thrown "late") "https://x/v.mp4" "dest"
        ⟨["dest"], 1⟩ = (Except.ok "dest", ⟨["dest"], 1⟩) :=
  ⟨by decide,
    download_cache_idempotent.1 _ _ _ _ (by decide),
    download_cache_idempotent.2.1 (FetchOutcome.resp ⟨true, true, 200, "OK"⟩)
      (FetchOutcome.thrown "late") "https://x/v.mp4" "dest" ⟨[], 0⟩ "dest"
      ⟨["dest"], 1⟩ rfl⟩

/-! ## The upload pipeline driver -/

/-- The store configuration the upload script loads from the environment. -/
structure R2Config where
  bucket : String
  accountId : String
  pfx : String
  publicBaseUrl : String
deriving Repr

/-- `buildPublicUrl` from the upload script: the configured base (with
trailing slashes stripped) followed by the key, or the default
store-specific URL pattern when no base is configured. -/
def buildPublicUrl (cfg : R2Config) (objectKey : String) : String :=
  if cfg.publicBaseUrl ≠ "" then
    String.mk (dropTrailSlashes cfg.publicBaseUrl.data) ++ "/" ++ objectKey
  else
    "https://" ++ cfg.bucket ++ "." ++ cfg.accountId ++
      ".r2.cloudflarestorage.com/" ++ objectKey

/-- The non-null return value of the upload script's `processEntry`. -/
inductive ProcOutcome where
  | done (key url : String) (reused : Bool)
deriving Repr, DecidableEq

/-- The context state `processEntry` reads and writes: the uploaded-key set
of the run, plus a log of the upload calls actually performed (in order),
recording one entry per PUT. -/
structure UploadState where
  uploadedKeys : List String
  uploadLog : List String
deriving Repr, DecidableEq

/-- The body of the upload script's `processEntry` after the source has
been trimmed and found non-empty: resolve the source to a local path
(`resolve` is the oracle for `resolveLocalPath`: downloading when remote,
checking existence when local), derive the object key, reuse the public
URL without uploading when the key is already in the uploaded-key set, and
otherwise upload (`upload` is the oracle for `uploadToR2`) and record the
key. -/
def resolveAndUpload (resolve : String → Except String String)
    (upload : String → String → Except String Unit) (cfg : R2Config)
    (source : String) (st : UploadState) :
    Except String (Option ProcOutcome) × UploadState :=
  match resolve source with
  | Except.error e => (Except.error e, st)
  | Except.ok localPath =>
    if deriveObjectKey source localPath cfg.pfx ∈ st.uploadedKeys then
      (Except.ok (some (ProcOutcome.done (deriveObjectKey source localPath cfg.pfx)
        (buildPublicUrl cfg (deriveObjectKey source localPath cfg.pfx)) true)), st)
    else
      match upload localPath (deriveObjectKey source localPath cfg.pfx) with
      | Except.error e => (Except.error e, st)
      | Except.ok _ =>
        (Except.ok (some (ProcOutcome.done (deriveObjectKey source localPath cfg.pfx)
          (buildPublicUrl cfg (deriveObjectKey source localPath cfg.pfx)) false)),
          ⟨deriveObjectKey source localPath cfg.pfx :: st.uploadedKeys,
            st.uploadLog ++ [deriveObjectKey source localPath cfg.pfx]⟩)

/-- `processEntry` from the upload script: return null for a falsy video
value, trim it, return null when the trimmed source is empty, and
otherwise proceed with the trimmed source. -/
def processEntryR2 (resolve : String → Except String String)
    (upload : String → String → Except String Unit) (cfg : R2Config)
    (video : String) (st : UploadState) :
    Except String (Option ProcOutcome) × UploadState :=
  if video = "" then (Except.ok none, st)
  else if jsTrim video = "" then (Except.ok none, st)
  else resolveAndUpload resolve upload cfg (jsTrim video) st

/-- What the driver loop records for one entry. -/
inductive EntryResult where
  | failed (msg : String)
  | skipped
  | done (key url : String) (reused : Bool)
deriving Repr, DecidableEq

/-- The driver's counters. -/
structure RunTotals where
  uploadCount : Nat
  reusedCount : Nat
  failureCount : Nat
deriving Repr, DecidableEq

/-- One iteration of the upload driver's loop over the collected entries:
a thrown error is caught and counted, a null result leaves the entry
alone, and a non-null result rewrites the entry's video field to the
public URL and bumps the matching counter. -/
def runStep (resolve : String → Except String String)
    (upload : String → String → Except String Unit) (cfg : R2Config)
    (video : String) (st : UploadState) (tot : RunTotals) :
    String × EntryResult × UploadState × RunTotals :=
  match processEntryR2 resolve upload cfg video st with
  | (Except.error e, st₁) =>
    (video, EntryResult.failed e, st₁,
      ⟨tot.uploadCount, tot.reusedCount, tot.failureCount + 1⟩)
  | (Except.ok none, st₁) => (video, EntryResult.skipped, st₁, tot)
  | (Except.ok (some (ProcOutcome.done k u r)), st₁) =>
    (u, EntryResult.done k u r, st₁,
      if r then ⟨tot.uploadCount, tot.reusedCount + 1, tot.failureCount⟩
      else ⟨tot.uploadCount + 1, tot.reusedCount, tot.failureCount⟩)

/-- Everything the upload driver's loop produced: the final video values
of the entries in order (what the rewritten JSON records), the per-entry
results, the final context state and the counters. -/
structure RunOutput where
  videos : List String
  results : List EntryResult
  finalState : UploadState
  totals : RunTotals
deriving Repr

/-- The upload driver's loop over the collected entries, in order. -/
def runEntries (resolve : String → Except String String)
    (upload : String → String → Except String Unit) (cfg : R2Config) :
    List String → UploadState → RunTotals → RunOutput
  | [], st, tot => ⟨[], [], st, tot⟩
  | v :: vs, st, tot =>
    let s := runStep resolve upload cfg v st tot
    let rest := runEntries resolve upload cfg vs s.2.2.1 s.2.2.2
    ⟨s.1 :: rest.videos, s.2.1 :: rest.results, rest.finalState, rest.totals⟩

/-- Invariant of the context state: the upload log has no duplicate keys
and records exactly the uploaded-key set. -/
def StInv (st : UploadState) : Prop :=
  st.uploadLog.Nodup ∧ ∀ k, k ∈ st.uploadedKeys ↔ k ∈ st.uploadLog

theorem processEntryR2_cases (resolve : String → Except String String)
    (upload : String → String → Except String Unit) (cfg : R2Config)
    (video : String) (st : UploadState) :
    (∃ e, processEntryR2 resolve upload cfg video st = (Except.error e, st)) ∨
    processEntryR2 resolve upload cfg video st = (Except.ok none, st) ∨
    (∃ k, k ∈ st.uploadedKeys ∧
      processEntryR2 resolve upload cfg video st =
        (Except.ok (some (ProcOutcome.done k (buildPublicUrl cfg k) true)), st)) ∨
    (∃ k, k ∉ st.uploadedKeys ∧
      processEntryR2 resolve upload cfg video st =
        (Except.ok (some (ProcOutcome.done k (buildPublicUrl cfg k) false)),
          ⟨k :: st.uploadedKeys, st.uploadLog ++ [k]⟩)) := by
  unfold processEntryR2
  by_cases h0 : video = ""
  · rw [if_pos h0]; exact Or.inr (Or.inl rfl)
  rw [if_neg h0]
  by_cases h1 : jsTrim video = ""
  · rw [if_pos h1]; exact Or.inr (Or.inl rfl)
  rw [if_neg h1]
  unfold resolveAndUpload
  cases hr : resolve (jsTrim video) with
  | error e => exact Or.inl ⟨e, rfl⟩
  | ok localPath =>
    dsimp only
    by_cases hk : deriveObjectKey (jsTrim video) localPath cfg.pfx ∈ st.uploadedKeys
    · rw [if_pos hk]
      exact Or.inr (Or.inr (Or.inl ⟨_, hk, rfl⟩))
    · rw [if_neg hk]
      cases hu : upload localPath (deriveObjectKey (jsTrim video) localPath cfg.pfx) with
      | error e => exact Or.inl ⟨e, rfl⟩
      | ok _ => exact Or.inr (Or.inr (Or.inr ⟨_, hk, rfl⟩))

/-- Whether a per-entry result is a caught failure. -/
def isFailedResult : EntryResult → Bool
  | EntryResult.failed _ => true
  | _ => false

theorem runStep_spec (resolve : String → Except String String)
    (upload : String → String → Except String Unit) (cfg : R2Config)
    (video : String) (st : UploadState) (tot : RunTotals) (hinv : StInv st) :
    StInv (runStep resolve upload cfg video st tot).2.2.1 ∧
    (∀ k, k ∈ st.uploadLog →
      k ∈ (runStep resolve upload cfg video st tot).2.2.1.uploadLog) ∧
    (runStep resolve upload cfg video st tot).2.2.2.failureCount =
      tot.failureCount +
        (if isFailedResult (runStep resolve upload cfg video st tot).2.1 then 1 else 0) ∧
    (match (runStep resolve upload cfg video st tot).2.1 with
     | EntryResult.failed _ => (runStep resolve upload cfg video st tot).1 = video
     | EntryResult.skipped => (runStep resolve upload cfg video st tot).1 = video
     | EntryResult.done k u _ =>
        u = buildPublicUrl cfg k ∧
        k ∈ (runStep resolve upload cfg video st tot).2.2.1.uploadedKeys ∧
        (runStep resolve upload cfg video st tot).1 = u) := by
  rcases processEntryR2_cases resolve upload cfg video st with
    ⟨e, h⟩ | h | ⟨k, hk, h⟩ | ⟨k, hk, h⟩ <;> unfold runStep <;> rw [h]
  · exact ⟨hinv, fun a ha => ha, rfl, rfl⟩
  · exact ⟨hinv, fun a ha => ha, rfl, rfl⟩
  · exact ⟨hinv, fun a ha => ha, rfl, rfl, hk, rfl⟩
  · refine ⟨⟨?_, ?_⟩, fun a ha => List.mem_append_left _ ha,
      rfl, rfl, List.mem_cons_self _ _, rfl⟩
    · refine List.Nodup.append hinv.1 (List.nodup_singleton k) ?_
      intro a ha hb
      rw [List.mem_singleton] at hb
      subst hb
      exact hk ((hinv.2 a).mpr ha)
    · intro a
      rw [List.mem_cons, List.mem_append, List.mem_singleton, hinv.2 a]
      tauto

/-- The pointwise relation between the entries' original video values, the
final video values and the per-entry results of one upload run (`stF` is
the final state of the run): failed and skipped entries are unchanged, a
done entry is rewritten to the public URL of its key and its key is in the
run's upload log. -/
def entriesRel (cfg : R2Config) (stF : UploadState) :
    List String → List String → List EntryResult → Prop
  | [], [], [] => True
  | v :: vs, w :: ws, r :: rs =>
    (match r with
     | EntryResult.failed _ => w = v
     | EntryResult.skipped => w = v
     | EntryResult.done k u _ =>
        u = buildPublicUrl cfg k ∧ k ∈ stF.uploadLog ∧ w = u) ∧
    entriesRel cfg stF vs ws rs
  | _, _, _ => False

theorem runEntries_main (resolve : String → Except String String)
    (upload : String → String → Except String Unit) (cfg : R2Config) :
    ∀ (vids : List String) (st : UploadState) (tot : RunTotals), StInv st →
    StInv (runEntries resolve upload cfg vids st tot).finalState ∧
    (∀ k, k ∈ st.uploadLog →
      k ∈ (runEntries resolve upload cfg vids st tot).finalState.uploadLog) ∧
    (runEntries resolve upload cfg vids st tot).totals.failureCount =
      tot.failureCount +
        (runEntries resolve upload cfg vids st tot).results.countP isFailedResult ∧
    entriesRel cfg (runEntries resolve upload cfg vids st tot).finalState vids
      (runEntries resolve upload cfg vids st tot).videos
      (runEntries resolve upload cfg vids st tot).results := by
  intro vids
  induction vids with
  | nil =>
    intro st tot hinv
    exact ⟨hinv, fun k hk => hk, by simp [runEntries], trivial⟩
  | cons v vs ih =>
    intro st tot hinv
    obtain ⟨sinv, smono, scount, sres⟩ := runStep_spec resolve upload cfg v st tot hinv
    obtain ⟨rinv, rmono, rcount, rrel⟩ :=
      ih (runStep resolve upload cfg v st tot).2.2.1
        (runStep resolve upload cfg v st tot).2.2.2 sinv
    simp only [runEntries]
    refine ⟨rinv, fun k hk => rmono k (smono k hk), ?_, ?_⟩
    · rw [rcount, scount, List.countP_cons]
      omega
    · unfold entriesRel
      refine ⟨?_, rrel⟩
      cases hres : (runStep resolve upload cfg v st tot).2.1 with
      | failed m => rw [hres] at sres; exact sres
      | skipped => rw [hres] at sres; exact sres
      | done k u b =>
        rw [hres] at sres
        obtain ⟨h1, h2, h3⟩ := sres
        exact ⟨h1, rmono k ((sinv.2 k).mp h2), h3⟩

theorem entriesRel_lengths (cfg : R2Config) (stF : UploadState) :
    ∀ vs ws rs, entriesRel cfg stF vs ws rs →
    ws.length = vs.length ∧ rs.length = vs.length := by
  intro vs
  induction vs with
  | nil =>
    intro ws rs h
    cases ws with
    | nil =>
      cases rs with
      | nil => exact ⟨rfl, rfl⟩
      | cons r rs => exact absurd h (by simp [entriesRel])
    | cons w ws => exact absurd h (by simp [entriesRel])
  | cons v vs ih =>
    intro ws rs h
    cases ws with
    | nil => exact absurd h (by simp [entriesRel])
    | cons w ws =>
      cases rs with
      | nil => exact absurd h (by simp [entriesRel])
      | cons r rs =>
        obtain ⟨hl1, hl2⟩ := ih ws rs h.2
        exact ⟨by simp [hl1], by simp [hl2]⟩

theorem entriesRel_index (cfg : R2Config) (stF : UploadState) :
    ∀ vs ws rs, entriesRel cfg stF vs ws rs → ∀ i : Nat,
    (∀ m, rs[i]? = some (EntryResult.failed m) → ws[i]? = vs[i]?) ∧
    (rs[i]? = some EntryResult.skipped → ws[i]? = vs[i]?) ∧
    (∀ k u b, rs[i]? = some (EntryResult.done k u b) →
      u = buildPublicUrl cfg k ∧ k ∈ stF.uploadLog ∧ ws[i]? = some u) := by
  intro vs
  induction vs with
  | nil =>
    intro ws rs h i
    cases ws with
    | nil =>
      cases rs with
      | nil => simp
      | cons r rs => exact absurd h (by simp [entriesRel])
    | cons w ws => exact absurd h (by simp [entriesRel])
  | cons v vs ih =>
    intro ws rs h i
    cases ws with
    | nil => exact absurd h (by simp [entriesRel])
    | cons w ws =>
      cases rs with
      | nil => exact absurd h (by simp [entriesRel])
      | cons r rs =>
        obtain ⟨hhead, htail⟩ := h
        cases i with
        | zero =>
          refine ⟨?_, ?_, ?_⟩
          · intro m hm
            simp only [List.getElem?_cons_zero, Option.some.injEq] at hm ⊢
            rw [hm] at hhead
            exact hhead
          · intro hm
            simp only [List.getElem?_cons_zero, Option.some.injEq] at hm ⊢
            rw [hm] at hhead
            exact hhead
          · intro k u b hm
            simp only [List.getElem?_cons_zero, Option.some.injEq] at hm ⊢
            rw [hm] at hhead
            exact ⟨hhead.1, hhead.2.1, hhead.2.2⟩
        | succ n =>
          simp only [List.getElem?_cons_succ]
          exact ih ws rs htail n

/-- The empty context `main` creates: no uploaded keys, no uploads
performed yet, all counters zero. -/
def emptyUploadState : UploadState := ⟨[], []⟩

/-- The zeroed counters at the start of a run. -/
def zeroTotals : RunTotals := ⟨0, 0, 0⟩

theorem emptyUploadState_inv : StInv emptyUploadState :=
  ⟨List.nodup_nil, fun k => by simp [emptyUploadState]⟩

/-- C7: in a single upload run, when two distinct entries both resolve to
the same object key (their per-entry results are done with the same key),
exactly one upload call is performed for that key over the whole run, the
two public URLs agree, and both entries' video fields are rewritten to
that one URL. -/
theorem upload_dedup (resolve : String → Except String String)
    (upload : String → String → Except String Unit) (cfg : R2Config)
    (vids : List String) (i j : Nat) (k u₁ u₂ : String) (b₁ b₂ : Bool)
    (hij : i ≠ j)
    (hi : (runEntries resolve upload cfg vids emptyUploadState zeroTotals).results[i]? =
      some (EntryResult.done k u₁ b₁))
    (hj : (runEntries resolve upload cfg vids emptyUploadState zeroTotals).results[j]? =
      some (EntryResult.done k u₂ b₂)) :
    ((runEntries resolve upload cfg vids emptyUploadState
        zeroTotals).finalState.uploadLog.count k = 1) ∧
    u₁ = u₂ ∧
    (runEntries resolve upload cfg vids emptyUploadState zeroTotals).videos[i]? =
      some u₁ ∧
    (runEntries resolve upload cfg vids emptyUploadState zeroTotals).videos[j]? =
      some u₂ := by
  obtain ⟨rinv, _, _, rrel⟩ :=
    runEntries_main resolve upload cfg vids emptyUploadState zeroTotals
      emptyUploadState_inv
  obtain ⟨hu₁, hk₁, hw₁⟩ := (entriesRel_index cfg _ _ _ _ rrel i).2.2 k u₁ b₁ hi
  obtain ⟨hu₂, _, hw₂⟩ := (entriesRel_index cfg _ _ _ _ rrel j).2.2 k u₂ b₂ hj
  exact ⟨List.count_eq_one_of_mem rinv.1 hk₁, hu₁.trans hu₂.symm, hw₁, hw₂⟩

/-- C7: witness instantiating the theorem at a concrete run: two entries
with the same source, a resolving oracle and an upload oracle. -/
theorem upload_dedup_witness :
    ((0 : Nat) ≠ 1) ∧
    ((runEntries (fun _ => Except.ok "/app/json-formatter/gifs/a.gif")
        (fun _ _ => Except.ok ()) ⟨"b", "acct", "", ""⟩
        ["gifs/a.gif", "gifs/a.gif"] emptyUploadState zeroTotals).finalState.uploadLog.count
          "gifs/a.gif" = 1) := by
  refine ⟨by decide, ?_⟩
  exact (upload_dedup (fun _ => Except.ok "/app/json-formatter/gifs/a.gif")
    (fun _ _ => Except.ok ()) ⟨"b", "acct", "", ""⟩
    ["gifs/a.gif", "gifs/a.gif"] 0 1 "gifs/a.gif"
    "https://b.acct.r2.cloudflarestorage.com/gifs/a.gif"
    "https://b.acct.r2.cloudflarestorage.com/gifs/a.gif" false true
    (by decide) (by decide) (by decide)).1

/-- C8: upload-driver error isolation and per-entry atomicity: every entry
gets a result (lengths are preserved, so processing continues past
failures), the failure counter ends at exactly the number of failed
entries, a failed entry's video value is unchanged in the written output,
and every successfully processed entry's video value is its rewritten
URL. -/
theorem upload_error_isolation (resolve : String → Except String String)
    (upload : String → String → Except String Unit) (cfg : R2Config)
    (vids : List String) :
    (runEntries resolve upload cfg vids emptyUploadState zeroTotals).videos.length =
      vids.length ∧
    (runEntries resolve upload cfg vids emptyUploadState zeroTotals).results.length =
      vids.length ∧
    (runEntries resolve upload cfg vids emptyUploadState
        zeroTotals).totals.failureCount =
      (runEntries resolve upload cfg vids emptyUploadState
        zeroTotals).results.countP isFailedResult ∧
    (∀ (i : Nat) (m : String), (runEntries resolve upload cfg vids emptyUploadState
        zeroTotals).results[i]? = some (EntryResult.failed m) →
      (runEntries resolve upload cfg vids emptyUploadState zeroTotals).videos[i]? =
        vids[i]?) ∧
    (∀ (i : Nat) (k u : String) (b : Bool),
      (runEntries resolve upload cfg vids emptyUploadState
        zeroTotals).results[i]? = some (EntryResult.done k u b) →
      (runEntries resolve upload cfg vids emptyUploadState zeroTotals).videos[i]? =
        some u) := by
  obtain ⟨_, _, rcount, rrel⟩ :=
    runEntries_main resolve upload cfg vids emptyUploadState zeroTotals
      emptyUploadState_inv
  obtain ⟨hl1, hl2⟩ := entriesRel_lengths cfg _ _ _ _ rrel
  refine ⟨hl1, hl2, by simpa [zeroTotals] using rcount, ?_, ?_⟩
  · intro i m hm
    exact (entriesRel_index cfg _ _ _ _ rrel i).1 m hm
  · intro i k u b hm
    exact ((entriesRel_index cfg _ _ _ _ rrel i).2.2 k u b hm).2.2

/-- C8: witness instantiating the theorem at a concrete run with one
failing and one succeeding entry. -/
theorem upload_error_isolation_witness :
    (runEntries (fun s => if s = "bad.gif" then Except.error "missing"
        else Except.ok "/app/json-formatter/gifs/a.gif")
      (fun _ _ => Except.ok ()) ⟨"b", "acct", "", ""⟩
      ["bad.gif", "gifs/a.gif"] emptyUploadState zeroTotals).videos.length = 2 ∧
    (runEntries (fun s => if s = "bad.gif" then Except.error "missing"
        else Except.ok "/app/json-formatter/gifs/a.gif")
      (fun _ _ => Except.ok ()) ⟨"b", "acct", "", ""⟩
      ["bad.gif", "gifs/a.gif"] emptyUploadState zeroTotals).videos[0]? =
      some "bad.gif" :=
  ⟨(upload_error_isolation _ _ _ _).1,
    (upload_error_isolation (fun s => if s = "bad.gif" then Except.error "missing"
        else Except.ok "/app/json-formatter/gifs/a.gif")
      (fun _ _ => Except.ok ()) ⟨"b", "acct", "", ""⟩
      ["bad.gif", "gifs/a.gif"]).2.2.2.1 0 "missing" (by decide)⟩

/-- C10: an entry of the upload pipeline whose video string is non-empty
but trims to empty is skipped entirely: for every resolve and upload
oracle the result is null with the context state untouched (so no
download and no upload occur), the driver step leaves the video value and
every counter unchanged, and for a non-blank video the trimmed source (not
the raw value) is what resolution and key derivation receive. -/
theorem upload_blank_video_skipped :
    (∀ (resolve : String → Except String String)
      (upload : String → String → Except String Unit) (cfg : R2Config)
      (video : String) (st : UploadState), video ≠ "" → jsTrim video = "" →
      processEntryR2 resolve upload cfg video st = (Except.ok none, st)) ∧
    (∀ (resolve : String → Except String String)
      (upload : String → String → Except String Unit) (cfg : R2Config)
      (video : String) (st : UploadState) (tot : RunTotals),
      video ≠ "" → jsTrim video = "" →
      runStep resolve upload cfg video st tot =
        (video, EntryResult.skipped, st, tot)) ∧
    (∀ (resolve : String → Except String String)
      (upload : String → String → Except String Unit) (cfg : R2Config)
      (video : String) (st : UploadState), video ≠ "" → jsTrim video ≠ "" →
      processEntryR2 resolve upload cfg video st =
        resolveAndUpload resolve upload cfg (jsTrim video) st) := by
  refine ⟨?_, ?_, ?_⟩
  · intro resolve upload cfg video st h0 h1
    unfold processEntryR2
    rw [if_neg h0, if_pos h1]
  · intro resolve upload cfg video st tot h0 h1
    unfold runStep processEntryR2
    rw [if_neg h0, if_pos h1]
  · intro resolve upload cfg video st h0 h1
    unfold processEntryR2
    rw [if_neg h0, if_neg h1]

/-- C10: witness instantiating the theorem at a whitespace-only video
value. -/
theorem upload_blank_video_skipped_witness :
    (("  " : String) ≠ "") ∧ jsTrim "  " = "" ∧
    processEntryR2 (fun s => Except.error ("no call " ++ s))
      (fun _ _ => Except.error "no upload") ⟨"b", "acct", "p", ""⟩ "  "
      emptyUploadState = (Except.ok none, emptyUploadState) :=
  ⟨by decide, by decide,
    upload_blank_video_skipped.1 _ _ _ _ _ (by decide) (by decide)⟩

/-! ## The convert pipeline -/

/-- Character-list test that a pattern ends the given list. -/
def endsWithChars (pat cs : List Char) : Bool :=
  beginsWith pat.reverse cs.reverse

/-- The guard of the convert script's `processEntry`: the video value,
lowercased, ends in ".mp4". -/
def videoIsMp4 (v : String) : Bool :=
  endsWithChars ".mp4".data (v.data.map Char.toLower)

/-- The basename strip of the final extension (the regex removing a final
dot followed by one or more non-dot characters; a name with no dot or
ending in a dot is unchanged). -/
def stripExtChars (cs : List Char) : List Char :=
  match cs.reverse.dropWhile (fun c => !(c == '.')) with
  | '.' :: rest =>
    if (cs.reverse.takeWhile (fun c => !(c == '.'))).isEmpty then cs
    else rest.reverse
  | _ => cs

/-- String form of the final-extension strip. -/
def stripExt (s : String) : String :=
  String.mk (stripExtChars s.data)

/-- Model of the platform path basename: the last slash-separated segment,
ignoring trailing slashes. -/
def pathBasename (s : String) : String :=
  String.mk (((dropTrailSlashes s.data).reverse.takeWhile
    (fun c => !(c == '/'))).reverse)

/-- Model of the platform URL parser as used by
`extractFilenameFromUrl` and `deriveObjectKey`: an http or https URL with
a non-empty host parses to its pathname; anything else throws. -/
def urlParse (url : String) : Except String String :=
  if isRemotePath url && !(urlHostChars url.data).isEmpty then
    Except.ok (String.mk (urlPathChars url.data))
  else Except.error ("Unable to parse URL " ++ url)

/-- `extractFilenameFromUrl` from the convert script: the percent-decoded
basename of the URL's pathname; throws on an unparsable URL. -/
def extractFilenameFromUrl (url : String) : Except String String :=
  match urlParse url with
  | Except.error e => Except.error e
  | Except.ok pn => Except.ok (percentDecode (pathBasename pn))

/-- Splitter of a character list into its slash-separated segments. -/
def splitOnSlashGo (cur : List Char) : List Char → List String
  | [] => [String.mk cur.reverse]
  | c :: rest =>
    if c = '/' then String.mk cur.reverse :: splitOnSlashGo [] rest
    else splitOnSlashGo (c :: cur) rest

/-- Slash-separated segments of a string. -/
def splitOnSlash (s : String) : List String :=
  splitOnSlashGo [] s.data

/-- Model of the platform path normalization over segments: empty and dot
segments vanish, a dot-dot segment pops the previous one (accumulating at
the front when there is nothing left to pop). -/
def normSegsGo (acc : List String) : List String → List String
  | [] => acc.reverse
  | s :: rest =>
    if s = "" ∨ s = "." then normSegsGo acc rest
    else if s = ".." then
      match acc with
      | [] => normSegsGo [".."] rest
      | ".." :: acc2 => normSegsGo (s :: ".." :: acc2) rest
      | _ :: acc2 => normSegsGo acc2 rest
    else normSegsGo (s :: acc) rest

/-- Joins segments with forward slashes. -/
def joinSegments : List String → String
  | [] => ""
  | [s] => s
  | s :: rest => s ++ "/" ++ joinSegments rest

/-- The composite the convert script computes for an entry's new video
value: `normalizePath(path.join(GIF_DIR, baseName + ".gif"))`, i.e. the
path of the generated GIF joined under the gifs directory, normalized,
taken relative to the script directory and rendered with forward
slashes. -/
def gifRelPath (base : String) : String :=
  joinSegments (normSegsGo [] ("gifs" :: splitOnSlash (base ++ ".gif")))

/-- `processEntry` from the convert script: null (no change) for a falsy
or non-mp4 video value; otherwise derive the filename from the URL,
download the mp4 (`dl` is the oracle for `downloadFile`), transcode it
(`cv` is the oracle for `convertToGif`, keyed by the GIF's relative path)
and rewrite the video value to the GIF's project-root-relative
forward-slash path.  Returns the entry's resulting video value and
whether it was rewritten; errors propagate (the convert driver has no
per-entry catch). -/
def convertProcessEntry (dl : String → Except String Unit)
    (cv : String → Except String Unit) (video : String) :
    Except String (String × Bool) :=
  if video = "" then Except.ok (video, false)
  else if videoIsMp4 video then
    match extractFilenameFromUrl video with
    | Except.error e => Except.error e
    | Except.ok filename =>
      match dl video with
      | Except.error e => Except.error e
      | Except.ok _ =>
        match cv (gifRelPath (stripExt filename)) with
        | Except.error e => Except.error e
        | Except.ok _ => Except.ok (gifRelPath (stripExt filename), true)
  else Except.ok (video, false)

theorem splitOnSlashGo_no_slash (cs : List Char) (hnos : ¬ '/' ∈ cs) :
    ∀ cur, splitOnSlashGo cur cs = [String.mk (cur.reverse ++ cs)] := by
  induction cs with
  | nil => intro cur; simp [splitOnSlashGo]
  | cons c rest ih =>
    intro cur
    have hc : ¬ c = '/' := fun h => hnos (h ▸ List.mem_cons_self c rest)
    rw [splitOnSlashGo, if_neg hc,
      ih (fun h => hnos (List.mem_cons_of_mem c h)) (c :: cur)]
    simp

theorem gifRelPath_no_slash (base : String) (h : ¬ '/' ∈ base.data) :
    gifRelPath base = "gifs/" ++ base ++ ".gif" := by
  have hdata : (base ++ ".gif").data = base.data ++ ['.', 'g', 'i', 'f'] := by
    rw [String.data_append]
  have hnos : ¬ '/' ∈ (base ++ ".gif").data := by
    rw [hdata]
    intro hmem
    rcases List.mem_append.mp hmem with hmem | hmem
    · exact h hmem
    · simp at hmem
  have hsplit : splitOnSlash (base ++ ".gif") = [base ++ ".gif"] := by
    unfold splitOnSlash
    rw [splitOnSlashGo_no_slash _ hnos []]
    rfl
  have hlen : (base ++ ".gif").data.length = base.data.length + 4 := by
    rw [hdata]; simp
  have hne : ∀ t : String, t.data.length ≤ 2 → base ++ ".gif" ≠ t := by
    intro t ht heq
    rw [heq] at hlen
    omega
  unfold gifRelPath
  rw [hsplit]
  simp only [normSegsGo]
  rw [if_neg (show ¬(("gifs" : String) = "" ∨ ("gifs" : String) = ".") by decide),
    if_neg (show ¬(("gifs" : String) = "..") by decide),
    if_neg ?hne1, if_neg ?hne2]
  case hne1 =>
    push_neg
    exact ⟨hne "" (by decide), hne "." (by decide)⟩
  case hne2 =>
    exact hne ".." (by decide)
  show joinSegments ["gifs", base ++ ".gif"] = _
  show "gifs" ++ "/" ++ (base ++ ".gif") = "gifs/" ++ base ++ ".gif"
  apply String.ext
  simp [String.data_append]

/-- C9: convert-driver rewrite: an entry whose video value does not end in
".mp4" (case-insensitively) is left unchanged; one that does, with a
parsable URL, is on successful download and transcode rewritten to the
project-root-relative forward-slash path of the generated GIF, which for
a decoded basename without slashes is exactly "gifs/" ++ basename ++
".gif" (the URL's path basename with a .gif extension); in particular the
collected entry of the input having key "a" over the video
"https://x/y/clip.mp4" is rewritten to "gifs/clip.gif". -/
theorem convert_rewrite_spec :
    (∀ (dl cv : String → Except String Unit) (video : String),
      videoIsMp4 video = false →
      convertProcessEntry dl cv video = Except.ok (video, false)) ∧
    (∀ (dl cv : String → Except String Unit) (video filename : String),
      videoIsMp4 video = true →
      extractFilenameFromUrl video = Except.ok filename →
      dl video = Except.ok () →
      cv (gifRelPath (stripExt filename)) = Except.ok () →
      convertProcessEntry dl cv video =
        Except.ok (gifRelPath (stripExt filename), true)) ∧
    (∀ filename : String, ¬ '/' ∈ (stripExt filename).data →
      gifRelPath (stripExt filename) = "gifs/" ++ stripExt filename ++ ".gif") ∧
    collectVideoEntries (Json.obj [("a", Json.obj [("video",
        Json.str "https://x/y/clip.mp4")])]) [] =
      [Json.obj [("video", Json.str "https://x/y/clip.mp4")]] ∧
    convertProcessEntry (fun _ => Except.ok ()) (fun _ => Except.ok ())
        "https://x/y/clip.mp4" = Except.ok ("gifs/clip.gif", true) := by
  refine ⟨?_, ?_, fun f => gifRelPath_no_slash (stripExt f), rfl, rfl⟩
  · intro dl cv video hmp4
    unfold convertProcessEntry
    by_cases h0 : video = ""
    · rw [if_pos h0]
    · rw [if_neg h0, hmp4]
      rfl
  · intro dl cv video filename hmp4 hfile hdl hcv
    have h0 : video ≠ "" := by
      intro h
      rw [h] at hmp4
      exact absurd hmp4 (by decide)
    unfold convertProcessEntry
    rw [if_neg h0, hmp4]
    simp [hfile, hdl, hcv]

/-- C9: witness instantiating the rewrite parts at the concrete scenario
input. -/
theorem convert_rewrite_spec_witness :
    convertProcessEntry (fun _ => Except.ok ()) (fun _ => Except.ok ())
        "https://x/other.webm" = Except.ok ("https://x/other.webm", false) ∧
    convertProcessEntry (fun _ => Except.ok ()) (fun _ => Except.ok ())
        "https://x/y/clip.mp4" = Except.ok ("gifs/clip.gif", true) := by
  refine ⟨convert_rewrite_spec.1 _ _ _ (by decide), ?_⟩
  have h := convert_rewrite_spec.2.1 (fun _ => Except.ok ())
    (fun _ => Except.ok ()) "https://x/y/clip.mp4" "clip.mp4"
    (by decide) rfl rfl rfl
  rw [h]
  rfl

end JsonFormatter
